import Mathlib

/-!
Shallow embedding of `helper_scripts/run_relational_experiment.py` and proofs
about it.  Python strings are modelled as `List Char`, Python integers as
`Int`, Python `str(...)` of an integer as `pyStrInt`, Python's
`str.replace(old, new)` as `pyReplace`, and Python's stable ascending
`sorted(...)` as `pySorted` (insertion sort).  Stateful objects
(`ExperimentRunner`) are modelled by explicit state passing; OS side effects
(spawning, signalling, the log file, `time.sleep`) are outside the state.
-/

set_option maxRecDepth 4000

/-- Fuel-driven loop producing the decimal digits of a natural number, most
significant digit first, as Python `str` prints a non-negative int.  The
fuel argument only forces termination; `pyStrNat` supplies enough of it. -/
def pyStrNatAux : Nat → Nat → List Char
  | 0, _ => []
  | fuel + 1, n =>
    if n < 10 then [Nat.digitChar n]
    else pyStrNatAux fuel (n / 10) ++ [Nat.digitChar (n % 10)]

/-- Python `str` of a non-negative integer. -/
def pyStrNat (n : Nat) : List Char := pyStrNatAux (n + 1) n

/-- Python `str` of an integer: a minus sign followed by the decimal digits
of the absolute value when negative, the decimal digits otherwise. -/
def pyStrInt (i : Int) : List Char :=
  if i < 0 then '-' :: pyStrNat i.natAbs else pyStrNat i.natAbs

/-- Boolean test that `pat` is an initial segment of `s`. -/
def startsWithL : List Char → List Char → Bool
  | [], _ => true
  | _ :: _, [] => false
  | a :: ps, b :: s => a == b && startsWithL ps s

/-- Python `str.replace(old, new)` (all occurrences, scanning left to right,
non-overlapping).  The callers in the script always pass a non-empty `old`;
for an empty `old` this returns the string unchanged. -/
def pyReplace (s old new : List Char) : List Char :=
  match s with
  | [] => []
  | a :: t =>
    if h : old ≠ [] ∧ startsWithL old (a :: t) = true then
      new ++ pyReplace ((a :: t).drop old.length) old new
    else
      a :: pyReplace t old new
termination_by s.length
decreasing_by
  · simp only [List.length_drop, List.length_cons]
    have h1 : 0 < old.length := List.length_pos.mpr h.1
    omega
  · simp

/-- Over-approximation used to reason about `pyReplace`: `mayStart A pat`
is false when no occurrence of `pat` can begin inside `A`, whatever list is
appended after `A` (no non-empty suffix of `A` starts with `pat`, and no
non-empty suffix of `A` is an initial segment of `pat`). -/
def mayStart : List Char → List Char → Bool
  | [], _ => false
  | a :: s, pat =>
    (startsWithL pat (a :: s) || startsWithL (a :: s) pat) || mayStart s pat

/-- Python `sorted` on a list of ints: a stable ascending sort, modelled by
insertion sort. -/
def pySorted (l : List Int) : List Int := List.insertionSort (· ≤ ·) l

/-- The `COMMAND_PREFIX` constant of the script (line 42). -/
def COMMAND_START : List Char :=
  "ros2 run performance_test perf_test --communication ROS2".toList

/-- The `VALID_TOPICS` whitelist of the script (lines 43-46). -/
def VALID_TOPICS : List (List Char) :=
  ["Array1k", "Array4k", "Array16k", "Array32k", "Array60k", "Array1m",
   "Array2m", "Struct16", "Struct256", "Struct4k", "Struct32k",
   "PointCloud512k", "PointCloud1m", "PointCloud2m", "PointCloud4m",
   "PointCloud8m", "Range", "NavSatFix", "RadarDetection",
   "RadarTrack"].map String.toList

/-- The `RELIABLE_FLAG` constant (line 47). -/
def RELIABLE_FLAG : List Char := "reliable".toList

/-- The `DURABILITY_FLAG` constant (line 48). -/
def DURABILITY_FLAG : List Char := "transient".toList

/-- The `SECURITY_FLAG` constant (line 49). -/
def SECURITY_FLAG : List Char := "with_security".toList

/-- The `Experiment` value object: the stored constructor parameters and the
three derived strings computed once by `__init__` (lines 104-133).  The
optional-flag parameters hold the strings handed over by the permutation
generator (`''` or the flag constant); Python truthiness of a string is
non-emptiness. -/
structure Experiment where
  topic : List Char
  rate : Int
  num_publishers : Int
  num_subscribers : Int
  reliability : List Char
  durability : List Char
  security : List Char
  path : List Char
  file_name : List Char
  command : List Char
deriving DecidableEq

/-- `Experiment.__init__` (lines 104-133).  `optional_params` collects the
flag constants of the truthy optional parameters in order reliability,
durability, security; `optional_filename` joins them each prefixed by an
underscore.  Line 123 computes `optional_filename.replace('with_', '')`
and discards the result (strings are immutable); the embedding keeps the
discarded computation as `_discarded`. -/
def Experiment.init (parent_path topic : List Char) (rate num_publishers
    num_subscribers : Int) (reliability durability security : List Char) :
    Experiment :=
  let optional_params : List (List Char) :=
    (if reliability = [] then [] else [RELIABLE_FLAG]) ++
    (if durability = [] then [] else [DURABILITY_FLAG]) ++
    (if security = [] then [] else [SECURITY_FLAG])
  let optional_filename : List Char :=
    if optional_params = [] then []
    else (optional_params.map (fun x => '_' :: x)).flatten
  let _discarded := pyReplace optional_filename "with_".toList []
  let path := parent_path ++ "/".toList ++ topic ++ optional_filename
  let file_name := path ++ "/topic".toList ++ topic ++ "_rate".toList ++
    pyStrInt rate ++ "_p".toList ++ pyStrInt num_publishers ++ "_s".toList ++
    pyStrInt num_subscribers ++ optional_filename ++ ".log".toList
  let command := COMMAND_START ++ " --topic ".toList ++ topic ++
    " --rate ".toList ++ pyStrInt rate ++ " -p".toList ++
    pyStrInt num_publishers ++ " -s".toList ++ pyStrInt num_subscribers ++
    (if optional_params = [] then []
     else List.intercalate " ".toList
       (optional_params.map (fun x => " --".toList ++ x))) ++
    " -l ".toList ++ file_name
  { topic := topic, rate := rate, num_publishers := num_publishers,
    num_subscribers := num_subscribers, reliability := reliability,
    durability := durability, security := security, path := path,
    file_name := file_name, command := command }

/-- One optional factor of the sweep: `x = ['']` then `x.append(FLAG)` when
the corresponding boolean is set (lines 67-77), so the flag-absent value
always comes first. -/
def flagChoices (enabled : Bool) (flag : List Char) : List (List Char) :=
  if enabled then [[], flag] else [[]]

/-- `generate_experiment_permutations` (lines 52-86):
`itertools.product(topics, rates, num_pubs, num_subs, r, d, s)` enumerated
with the leftmost factor outermost and the rightmost factor fastest, each
tuple turned into an `Experiment`. -/
def generate_experiment_permutations (parent_path : List Char)
    (topics : List (List Char)) (rates num_pubs num_subs : List Int)
    (reliability durability security : Bool) : List Experiment :=
  let r := flagChoices reliability RELIABLE_FLAG
  let d := flagChoices durability DURABILITY_FLAG
  let s := flagChoices security SECURITY_FLAG
  topics.flatMap fun t =>
    rates.flatMap fun rate =>
      num_pubs.flatMap fun np =>
        num_subs.flatMap fun ns =>
          r.flatMap fun fr =>
            d.flatMap fun fd =>
              s.flatMap fun fs =>
                [Experiment.init parent_path t rate np ns fr fd fs]

/-- A process handle tracked in `self.processes`: either the
`log_system_stats.py` sampler spawned with a derived output file name, or
the benchmark process of an experiment. -/
inductive Proc where
  | sampler (file_name : List Char)
  | bench (e : Experiment)
deriving DecidableEq

/-- The mutable state of `ExperimentRunner` (lines 181-199): the process
registry, the executed-test counter, the run queue, and the sampling flag.
Directory creation and the run-log setup in `__init__` are OS effects
outside the state. -/
structure ExperimentRunner where
  processes : List Proc
  number_tests_executed : Nat
  experiment_list : List Experiment
  log_system_stats : Bool
deriving DecidableEq

/-- The sampler output file name derived in `ExperimentRunner.run`
(line 232): the experiment's log file name with every `topic` occurrence
replaced by `system_info_topic` and every `.log` occurrence replaced by
`.csv`. -/
def samplerFileName (e : Experiment) : List Char :=
  pyReplace (pyReplace e.file_name "topic".toList "system_info_topic".toList)
    ".log".toList ".csv".toList

/-- `ExperimentRunner.has_commands` (lines 209-215). -/
def ExperimentRunner.has_commands (r : ExperimentRunner) : Bool :=
  decide (0 < r.experiment_list.length)

/-- `ExperimentRunner.get_number_of_experiments` (lines 201-207). -/
def ExperimentRunner.get_number_of_experiments (r : ExperimentRunner) : Nat :=
  r.experiment_list.length

/-- `ExperimentRunner.run` (lines 217-243): when the queue is non-empty, pop
its head, append the sampler handle when sampling is enabled and then the
benchmark handle to the registry, and increment the executed counter;
otherwise only print (no state change).  Spawning, logging and
`time.sleep(1)` are OS effects outside the state. -/
def ExperimentRunner.run (r : ExperimentRunner) : ExperimentRunner :=
  match r.experiment_list with
  | e :: rest =>
    let withSampler :=
      if r.log_system_stats then r.processes ++ [Proc.sampler (samplerFileName e)]
      else r.processes
    { r with
      processes := withSampler ++ [Proc.bench e],
      number_tests_executed := r.number_tests_executed + 1,
      experiment_list := rest }
  | [] => r

/-- `ExperimentRunner.kill` (lines 245-252): signal every tracked handle
(`p.kill()`, a `kill -9` by pid, then a `pkill -9 perf_test` sweep — OS
effects whose outcomes the code never inspects) and unconditionally reset
the registry to the empty list. -/
def ExperimentRunner.kill (r : ExperimentRunner) : ExperimentRunner :=
  { r with processes := [] }

/-- One timer tick of `timer_handler` (lines 347-359) as it acts on the
runner state while the queue is non-empty: kill the previous experiment's
processes, then run the next (the `pkill` of the sampler by name is an OS
effect, and on an empty queue the handler exits the process instead). -/
def timerStep (r : ExperimentRunner) : ExperimentRunner :=
  (ExperimentRunner.kill r).run

/-- Iterate `timerStep` a given number of times. -/
def iterKR : Nat → ExperimentRunner → ExperimentRunner
  | 0, r => r
  | n + 1, r => iterKR n (timerStep r)

/-- The benchmark experiments among a list of tracked handles, in order. -/
def benchOf (ps : List Proc) : List Experiment :=
  ps.filterMap fun p =>
    match p with
    | Proc.bench e => some e
    | Proc.sampler _ => none

/-- Validation of `--rate` in `main` (lines 276-281): sort, then error out
iff the first (least) element is non-positive; an empty list passes. -/
def ratePasses (rate : List Int) : Bool :=
  match pySorted rate with
  | [] => true
  | i :: _ => decide (0 < i)

/-- Validation of `--publishers` in `main` (lines 283-288): sort, then
error out iff the first (least) element is non-positive. -/
def publishersPasses (publishers : List Int) : Bool :=
  match pySorted publishers with
  | [] => true
  | i :: _ => decide (0 < i)

/-- Validation of `--subscribers` in `main` (lines 290-295): error out iff
the least element is negative. -/
def subscribersPasses (subscribers : List Int) : Bool :=
  match pySorted subscribers with
  | [] => true
  | i :: _ => decide (0 ≤ i)

/-- The `main` parameter validation (lines 276-300): all four checks pass.
The period check first computes `period = float(args.period) + 1.0`
(line 297) and errors out iff that adjusted value is non-positive; the
period is modelled as an exact rational. -/
def mainValidation (rate publishers subscribers : List Int) (period : ℚ) :
    Bool :=
  ratePasses rate && publishersPasses publishers &&
    subscribersPasses subscribers && decide (0 < period + 1)

/-- Spec-side description of the optional suffix of directory and log-file
names: exactly the flags set true, in the fixed order reliability,
durability, security, each token prefixed by an underscore. -/
def flagSuffix (reliability durability security : List Char) : List Char :=
  (if reliability = [] then [] else "_reliable".toList) ++
  (if durability = [] then [] else "_transient".toList) ++
  (if security = [] then [] else "_with_security".toList)

/-- Spec-side table of the optional-flag segment of the command line, one
entry per combination of enabled flags, in the fixed order reliability,
durability, security (each flag is introduced by ` --`; when several flags
are enabled the `' '.join` of the script puts two spaces between them, as
the module docstring of the script shows). -/
def flagArgs (reliability durability security : List Char) : List Char :=
  if reliability = [] then
    if durability = [] then
      if security = [] then [] else " --with_security".toList
    else
      if security = [] then " --transient".toList
      else " --transient  --with_security".toList
  else
    if durability = [] then
      if security = [] then " --reliable".toList
      else " --reliable  --with_security".toList
    else
      if security = [] then " --reliable  --transient".toList
      else " --reliable  --transient  --with_security".toList


/-! Helper lemmas about `startsWithL`, `mayStart` and `pyReplace`. -/

theorem startsWithL_append_self (pat C : List Char) :
    startsWithL pat (pat ++ C) = true := by
  induction pat with
  | nil => rfl
  | cons a ps ih => simp [startsWithL, ih]

theorem startsWithL_of_append_left {t B pat : List Char}
    (h : startsWithL (t ++ B) pat = true) : startsWithL t pat = true := by
  induction t generalizing pat with
  | nil => rfl
  | cons a ts ih =>
    cases pat with
    | nil => simp [startsWithL] at h
    | cons b ps =>
      simp only [List.cons_append, startsWithL, Bool.and_eq_true] at h ⊢
      exact ⟨h.1, ih h.2⟩

theorem startsWithL_split {pat t B : List Char}
    (h : startsWithL pat (t ++ B) = true) :
    startsWithL pat t = true ∨ startsWithL t pat = true := by
  induction pat generalizing t with
  | nil => exact Or.inl rfl
  | cons p ps ih =>
    cases t with
    | nil => exact Or.inr rfl
    | cons a ts =>
      simp only [List.cons_append, startsWithL, Bool.and_eq_true] at h ⊢
      rcases ih h.2 with h2 | h2
      · exact Or.inl ⟨h.1, h2⟩
      · exact Or.inr ⟨(beq_iff_eq.mpr (beq_iff_eq.mp h.1).symm), h2⟩

theorem mayStart_cons {a : Char} {s pat : List Char} :
    mayStart (a :: s) pat = false ↔
      startsWithL pat (a :: s) = false ∧ startsWithL (a :: s) pat = false ∧
        mayStart s pat = false := by
  simp [mayStart, and_assoc]

theorem mayStart_append {A B pat : List Char} (hA : mayStart A pat = false)
    (hB : mayStart B pat = false) : mayStart (A ++ B) pat = false := by
  induction A with
  | nil => simpa using hB
  | cons a As ih =>
    rw [mayStart_cons] at hA
    rw [List.cons_append, mayStart_cons]
    refine ⟨?_, ?_, ih hA.2.2⟩
    · cases hocc : startsWithL pat (a :: (As ++ B)) with
      | false => rfl
      | true =>
        exfalso
        rcases startsWithL_split (t := a :: As) (B := B) hocc with h | h
        · rw [hA.1] at h; exact Bool.false_ne_true h
        · rw [hA.2.1] at h; exact Bool.false_ne_true h
    · cases hocc : startsWithL (a :: (As ++ B)) pat with
      | false => rfl
      | true =>
        exfalso
        have := startsWithL_of_append_left (t := a :: As) (B := B) hocc
        rw [hA.2.1] at this; exact Bool.false_ne_true this

theorem mayStart_head {p : Char} {ps A : List Char}
    (h : ∀ c ∈ A, c ≠ p) : mayStart A (p :: ps) = false := by
  induction A with
  | nil => rfl
  | cons a As ih =>
    have ha : a ≠ p := h a (by simp)
    rw [mayStart_cons]
    refine ⟨?_, ?_, ih fun c hc => h c (by simp [hc])⟩
    · simp [startsWithL, beq_iff_eq]
      intro he
      exact absurd he.symm ha
    · simp [startsWithL, beq_iff_eq]
      intro he
      exact absurd he ha

theorem pyReplace_nil (old new : List Char) : pyReplace [] old new = [] := by
  rw [pyReplace]

theorem pyReplace_append_left {A pat : List Char} (B new : List Char)
    (hA : mayStart A pat = false) :
    pyReplace (A ++ B) pat new = A ++ pyReplace B pat new := by
  induction A with
  | nil => rfl
  | cons a As ih =>
    rw [mayStart_cons] at hA
    rw [List.cons_append, pyReplace]
    have hcond : ¬(pat ≠ [] ∧ startsWithL pat (a :: (As ++ B)) = true) := by
      rintro ⟨-, hocc⟩
      rcases startsWithL_split (t := a :: As) (B := B) hocc with h | h
      · rw [hA.1] at h; exact Bool.false_ne_true h
      · rw [hA.2.1] at h; exact Bool.false_ne_true h
    rw [dif_neg hcond, ih hA.2.2, List.cons_append]

theorem pyReplace_of_mayStart_false {C pat : List Char} (new : List Char)
    (hC : mayStart C pat = false) : pyReplace C pat new = C := by
  have := pyReplace_append_left [] new hC
  simpa [pyReplace_nil] using this

theorem pyReplace_hit {pat : List Char} (C new : List Char) (h : pat ≠ []) :
    pyReplace (pat ++ C) pat new = new ++ pyReplace C pat new := by
  obtain ⟨p, ps, hp⟩ : ∃ p ps, pat = p :: ps := by
    cases pat with
    | nil => exact absurd rfl h
    | cons p ps => exact ⟨p, ps, rfl⟩
  subst hp
  rw [List.cons_append, pyReplace]
  have hsw : startsWithL (p :: ps) (p :: (ps ++ C)) = true := by
    have := startsWithL_append_self (p :: ps) C
    simpa using this
  rw [dif_pos ⟨h, hsw⟩]
  have hdrop : List.drop (p :: ps).length (p :: (ps ++ C)) = C := by
    rw [show p :: (ps ++ C) = (p :: ps) ++ C from rfl, List.drop_left]
  rw [hdrop]


/-! Helper lemmas about the decimal rendering `pyStrNat` / `pyStrInt`. -/

/-- Value read back from a digit list (Horner scheme), used to show that
`pyStrNat` is injective. -/
def digitsVal (l : List Char) : Nat :=
  l.foldl (fun a c => a * 10 + (c.toNat - 48)) 0

theorem digitsVal_concat (l : List Char) (c : Char) :
    digitsVal (l ++ [c]) = digitsVal l * 10 + (c.toNat - 48) := by
  simp [digitsVal, List.foldl_append]

theorem digitChar_val {d : Nat} (h : d < 10) :
    (Nat.digitChar d).toNat - 48 = d := by
  interval_cases d <;> rfl

theorem digitChar_isDigit {d : Nat} (h : d < 10) :
    (Nat.digitChar d).isDigit = true := by
  interval_cases d <;> rfl

theorem pyStrNatAux_val {fuel n : Nat} (h : n < fuel) :
    digitsVal (pyStrNatAux fuel n) = n := by
  induction fuel generalizing n with
  | zero => omega
  | succ fuel ih =>
    rw [pyStrNatAux]
    by_cases h10 : n < 10
    · simp only [if_pos h10]
      have : digitsVal [Nat.digitChar n] = n := by
        simp [digitsVal, digitChar_val h10]
      simpa using this
    · simp only [if_neg h10]
      rw [digitsVal_concat]
      have hdiv : n / 10 < fuel := by
        have : n / 10 < n := Nat.div_lt_self (by omega) (by omega)
        omega
      rw [ih hdiv, digitChar_val (Nat.mod_lt n (by omega))]
      omega

theorem pyStrNat_val (n : Nat) : digitsVal (pyStrNat n) = n :=
  pyStrNatAux_val (Nat.lt_succ_self n)

theorem pyStrNat_inj {m n : Nat} (h : pyStrNat m = pyStrNat n) : m = n := by
  have := pyStrNat_val m
  rw [h, pyStrNat_val] at this
  omega

theorem pyStrNatAux_isDigit {fuel n : Nat} :
    ∀ c ∈ pyStrNatAux fuel n, c.isDigit = true := by
  induction fuel generalizing n with
  | zero => intro c hc; simp [pyStrNatAux] at hc
  | succ fuel ih =>
    intro c hc
    rw [pyStrNatAux] at hc
    by_cases h10 : n < 10
    · rw [if_pos h10] at hc
      simp at hc
      rw [hc]
      exact digitChar_isDigit h10
    · rw [if_neg h10] at hc
      rcases List.mem_append.mp hc with hc | hc
      · exact ih c hc
      · simp at hc
        rw [hc]
        exact digitChar_isDigit (Nat.mod_lt n (by omega))

theorem pyStrNat_isDigit {n : Nat} : ∀ c ∈ pyStrNat n, c.isDigit = true :=
  pyStrNatAux_isDigit

theorem pyStrNat_ne_nil (n : Nat) : pyStrNat n ≠ [] := by
  rw [pyStrNat, pyStrNatAux]
  by_cases h10 : n < 10
  · simp [h10]
  · simp [h10]

theorem pyStrInt_chars {i : Int} :
    ∀ c ∈ pyStrInt i, c.isDigit = true ∨ c = '-' := by
  intro c hc
  rw [pyStrInt] at hc
  by_cases hneg : i < 0
  · rw [if_pos hneg] at hc
    rcases List.mem_cons.mp hc with hc | hc
    · exact Or.inr hc
    · exact Or.inl (pyStrNat_isDigit c hc)
  · rw [if_neg hneg] at hc
    exact Or.inl (pyStrNat_isDigit c hc)

theorem pyStrInt_inj {a b : Int} (h : pyStrInt a = pyStrInt b) : a = b := by
  rw [pyStrInt, pyStrInt] at h
  by_cases ha : a < 0 <;> by_cases hb : b < 0
  · rw [if_pos ha, if_pos hb] at h
    have h2 : pyStrNat a.natAbs = pyStrNat b.natAbs := by
      injection h
    have := pyStrNat_inj h2
    omega
  · rw [if_pos ha, if_neg hb] at h
    exfalso
    have hm : '-' ∈ pyStrNat b.natAbs := by rw [← h]; simp
    have := pyStrNat_isDigit '-' hm
    simp [Char.isDigit] at this
  · rw [if_neg ha, if_pos hb] at h
    exfalso
    have hm : '-' ∈ pyStrNat a.natAbs := by rw [h]; simp
    have := pyStrNat_isDigit '-' hm
    simp [Char.isDigit] at this
  · rw [if_neg ha, if_neg hb] at h
    have := pyStrNat_inj h
    omega

theorem underscore_not_in_pyStrInt {i : Int} : '_' ∉ pyStrInt i := by
  intro hm
  rcases pyStrInt_chars '_' hm with h | h
  · simp [Char.isDigit] at h
  · simp at h

theorem dot_not_in_pyStrInt {i : Int} : '.' ∉ pyStrInt i := by
  intro hm
  rcases pyStrInt_chars '.' hm with h | h
  · simp [Char.isDigit] at h
  · simp at h

theorem mayStart_pyStrInt {i : Int} {p : Char} {ps : List Char}
    (hd : p.isDigit = false) (hm : p ≠ '-') :
    mayStart (pyStrInt i) (p :: ps) = false := by
  refine mayStart_head fun c hc => ?_
  rcases pyStrInt_chars c hc with h | h
  · intro he; rw [he] at h; rw [h] at hd; exact absurd hd (by simp)
  · intro he; rw [he] at h; exact hm h


/-! Characterization of the strings derived by `Experiment.__init__`. -/

theorem cons_flag_reliable : '_' :: RELIABLE_FLAG = "_reliable".toList := by
  decide

theorem cons_flag_transient : '_' :: DURABILITY_FLAG = "_transient".toList := by
  decide

theorem cons_flag_security : '_' :: SECURITY_FLAG = "_with_security".toList := by
  decide

theorem init_path_eq (parent topic : List Char) (rate np ns : Int)
    (f1 f2 f3 : List Char) :
    (Experiment.init parent topic rate np ns f1 f2 f3).path
      = parent ++ "/".toList ++ topic ++ flagSuffix f1 f2 f3 := by
  by_cases h1 : f1 = [] <;> by_cases h2 : f2 = [] <;> by_cases h3 : f3 = [] <;>
    simp [Experiment.init, flagSuffix, h1, h2, h3, cons_flag_reliable,
      cons_flag_transient, cons_flag_security, List.append_assoc]


theorem init_file_name_eq (parent topic : List Char) (rate np ns : Int)
    (f1 f2 f3 : List Char) :
    (Experiment.init parent topic rate np ns f1 f2 f3).file_name
      = parent ++ "/".toList ++ topic ++ flagSuffix f1 f2 f3 ++ "/topic".toList
        ++ topic ++ "_rate".toList ++ pyStrInt rate ++ "_p".toList ++ pyStrInt np
        ++ "_s".toList ++ pyStrInt ns ++ flagSuffix f1 f2 f3 ++ ".log".toList := by
  by_cases h1 : f1 = [] <;> by_cases h2 : f2 = [] <;> by_cases h3 : f3 = [] <;>
    simp [Experiment.init, flagSuffix, h1, h2, h3, cons_flag_reliable,
      cons_flag_transient, cons_flag_security, List.append_assoc]

theorem init_command_eq (parent topic : List Char) (rate np ns : Int)
    (f1 f2 f3 : List Char) :
    (Experiment.init parent topic rate np ns f1 f2 f3).command
      = COMMAND_START ++ " --topic ".toList ++ topic ++ " --rate ".toList
        ++ pyStrInt rate ++ " -p".toList ++ pyStrInt np ++ " -s".toList
        ++ pyStrInt ns ++ flagArgs f1 f2 f3 ++ " -l ".toList
        ++ (Experiment.init parent topic rate np ns f1 f2 f3).file_name := by
  by_cases h1 : f1 = [] <;> by_cases h2 : f2 = [] <;> by_cases h3 : f3 = [] <;>
    simp [Experiment.init, flagArgs, h1, h2, h3, List.intercalate,
      List.intersperse, RELIABLE_FLAG, DURABILITY_FLAG, SECURITY_FLAG,
      COMMAND_START, List.append_assoc]


/-! Lemmas for uniqueness of derived names (claim C8). -/

theorem append_cancelL {α : Type} {A X Y : List α} (h : A ++ X = A ++ Y) :
    X = Y := by
  induction A with
  | nil => simpa using h
  | cons a As ih =>
    injection h with _ h2
    exact ih h2

theorem sep_split {c : Char} {A1 : List Char} : ∀ {A2 X1 X2 : List Char},
    A1 ++ c :: X1 = A2 ++ c :: X2 → c ∉ A1 → c ∉ A2 → A1 = A2 ∧ X1 = X2 := by
  induction A1 with
  | nil =>
    intro A2 X1 X2 h h1 h2
    cases A2 with
    | nil =>
      simp only [List.nil_append] at h
      injection h with _ h
      exact ⟨rfl, h⟩
    | cons b B2 =>
      simp only [List.nil_append, List.cons_append] at h
      injection h with hb _
      exact absurd (by simp [hb]) h2
  | cons a A1t ih =>
    intro A2 X1 X2 h h1 h2
    cases A2 with
    | nil =>
      simp only [List.cons_append, List.nil_append] at h
      injection h with hb _
      exact absurd (by simp [← hb]) h1
    | cons b B2 =>
      simp only [List.cons_append] at h
      injection h with hab ht
      have h1t : c ∉ A1t := fun hm => h1 (by simp [hm])
      have h2t : c ∉ B2 := fun hm => h2 (by simp [hm])
      obtain ⟨hA, hX⟩ := ih ht h1t h2t
      exact ⟨by rw [hab, hA], hX⟩

theorem flagSuffix_congr {f1 f2 f3 g1 g2 g3 : List Char}
    (e1 : f1 = [] ↔ g1 = []) (e2 : f2 = [] ↔ g2 = [])
    (e3 : f3 = [] ↔ g3 = []) :
    flagSuffix f1 f2 f3 = flagSuffix g1 g2 g3 := by
  rw [flagSuffix, flagSuffix, if_congr e1 rfl rfl, if_congr e2 rfl rfl,
    if_congr e3 rfl rfl]

theorem flagSuffix_shape (f1 f2 f3 : List Char) :
    flagSuffix f1 f2 f3 = [] ∨ ∃ u, flagSuffix f1 f2 f3 = '_' :: u := by
  by_cases h1 : f1 = []
  · by_cases h2 : f2 = []
    · by_cases h3 : f3 = []
      · exact Or.inl (by simp [flagSuffix, h1, h2, h3])
      · exact Or.inr ⟨"with_security".toList, by simp [flagSuffix, h1, h2, h3]⟩
    · by_cases h3 : f3 = []
      · exact Or.inr ⟨"transient".toList, by simp [flagSuffix, h1, h2, h3]⟩
      · exact Or.inr ⟨"transient_with_security".toList,
          by simp [flagSuffix, h1, h2, h3]⟩
  · by_cases h2 : f2 = []
    · by_cases h3 : f3 = []
      · exact Or.inr ⟨"reliable".toList, by simp [flagSuffix, h1, h2, h3]⟩
      · exact Or.inr ⟨"reliable_with_security".toList,
          by simp [flagSuffix, h1, h2, h3]⟩
    · by_cases h3 : f3 = []
      · exact Or.inr ⟨"reliable_transient".toList,
          by simp [flagSuffix, h1, h2, h3]⟩
      · exact Or.inr ⟨"reliable_transient_with_security".toList,
          by simp [flagSuffix, h1, h2, h3]⟩

theorem flagSuffix_eq_iff {f1 f2 f3 g1 g2 g3 : List Char}
    (h : flagSuffix f1 f2 f3 = flagSuffix g1 g2 g3) :
    (f1 = [] ↔ g1 = []) ∧ (f2 = [] ↔ g2 = []) ∧ (f3 = [] ↔ g3 = []) := by
  by_cases h1 : f1 = [] <;> by_cases h2 : f2 = [] <;> by_cases h3 : f3 = [] <;>
  by_cases k1 : g1 = [] <;> by_cases k2 : g2 = [] <;> by_cases k3 : g3 = [] <;>
    simp [flagSuffix, h1, h2, h3, k1, k2, k3] at h ⊢

theorem triple_of_tail_eq {r1 p1 s1 r2 p2 s2 : Int} {O : List Char}
    (hO : O = [] ∨ ∃ u, O = '_' :: u)
    (h : pyStrInt r1 ++ '_' :: 'p' :: (pyStrInt p1 ++ '_' :: 's' ::
          (pyStrInt s1 ++ (O ++ ".log".toList)))
       = pyStrInt r2 ++ '_' :: 'p' :: (pyStrInt p2 ++ '_' :: 's' ::
          (pyStrInt s2 ++ (O ++ ".log".toList)))) :
    r1 = r2 ∧ p1 = p2 ∧ s1 = s2 := by
  obtain ⟨hr, h⟩ :=
    sep_split h underscore_not_in_pyStrInt underscore_not_in_pyStrInt
  injection h with _ h
  obtain ⟨hp, h⟩ :=
    sep_split h underscore_not_in_pyStrInt underscore_not_in_pyStrInt
  injection h with _ h
  refine ⟨pyStrInt_inj hr, pyStrInt_inj hp, ?_⟩
  rcases hO with hO | ⟨u, hO⟩
  · subst hO
    simp only [List.nil_append,
      show ".log".toList = '.' :: "log".toList from rfl] at h
    obtain ⟨hs, -⟩ := sep_split h dot_not_in_pyStrInt dot_not_in_pyStrInt
    exact pyStrInt_inj hs
  · subst hO
    simp only [List.cons_append] at h
    obtain ⟨hs, -⟩ :=
      sep_split h underscore_not_in_pyStrInt underscore_not_in_pyStrInt
    exact pyStrInt_inj hs

/-! Lemmas about the flattened Cartesian product (claims C1 and C7). -/

theorem length_flatMap_const {α β : Type} {l : List α} {f : α → List β}
    {k : Nat} (hf : ∀ a ∈ l, (f a).length = k) :
    (l.flatMap f).length = l.length * k := by
  induction l with
  | nil => simp
  | cons a t ih =>
    simp only [List.flatMap_cons, List.length_append, List.length_cons]
    rw [hf a (by simp), ih (fun x hx => hf x (by simp [hx]))]
    ring

theorem get?_flatMap_const {α β : Type} {l : List α} {f : α → List β}
    {k : Nat} (hf : ∀ a ∈ l, (f a).length = k) (i : Nat) :
    (l.flatMap f).get? i = (l.get? (i / k)).bind fun a => (f a).get? (i % k) := by
  induction l generalizing i with
  | nil => simp
  | cons a t ih =>
    have hk : (f a).length = k := hf a (by simp)
    by_cases hik : i < k
    · have hk0 : 0 < k := by omega
      rw [List.flatMap_cons, List.get?_append (by rw [hk]; exact hik),
        Nat.div_eq_of_lt hik, Nat.mod_eq_of_lt hik]
      simp
    · push_neg at hik
      rw [List.flatMap_cons, List.get?_append_right (by rw [hk]; exact hik), hk,
        ih (fun x hx => hf x (by simp [hx]))]
      by_cases hk0 : k = 0
      · subst hk0
        have hfa : f a = [] := List.length_eq_zero.mp hk
        cases t with
        | nil => simp [hfa]
        | cons b tb =>
          have hfb : f b = [] := List.length_eq_zero.mp (hf b (by simp))
          simp [hfa, hfb]
      · have hdiv : i / k = (i - k) / k + 1 :=
          Nat.div_eq_sub_div (Nat.pos_of_ne_zero hk0) hik
        have hmod : i % k = (i - k) % k := Nat.mod_eq_sub_mod hik
        rw [hdiv, hmod, List.get?_cons_succ]

/-! Lemmas about the scheduler state machine (claims C2, C3, C7, C9). -/

theorem kill_exp_list (r : ExperimentRunner) :
    (ExperimentRunner.kill r).experiment_list = r.experiment_list := rfl

theorem iterKR_exp_list (n : Nat) (r : ExperimentRunner) :
    (iterKR n r).experiment_list = r.experiment_list.drop n := by
  induction n generalizing r with
  | zero => simp [iterKR]
  | succ n ih =>
    rw [iterKR, ih]
    cases hq : r.experiment_list with
    | nil =>
      simp [timerStep, ExperimentRunner.kill, ExperimentRunner.run, hq]
    | cons e rest =>
      simp [timerStep, ExperimentRunner.kill, ExperimentRunner.run, hq]

theorem iterKR_succ_last (n : Nat) (r : ExperimentRunner) :
    iterKR (n + 1) r = timerStep (iterKR n r) := by
  induction n generalizing r with
  | zero => rfl
  | succ n ih =>
    rw [iterKR, ih]
    rfl

theorem benchOf_after (q : List Experiment) (stats : Bool) (ps : List Proc)
    (k n : Nat) (e : Experiment) (hq : q.get? n = some e) :
    benchOf (iterKR (n + 1) ⟨ps, k, q, stats⟩).processes = [e] := by
  rw [iterKR_succ_last]
  have hlen : n < q.length := (List.get?_eq_some.mp hq).1
  have hdrop : q.drop n = e :: q.drop (n + 1) := by
    rw [List.drop_eq_getElem_cons hlen]
    congr 1
    have := (List.get?_eq_some.mp hq).2
    simpa [List.get_eq_getElem] using this
  have hexp : (iterKR n ⟨ps, k, q, stats⟩).experiment_list = e :: q.drop (n + 1) := by
    rw [iterKR_exp_list]
    exact hdrop
  cases stats <;>
    simp [timerStep, ExperimentRunner.kill, ExperimentRunner.run, hexp, benchOf]


/-! Lemmas about the `main` validation (claim C4). -/

theorem pySorted_head_le {l : List Int} {h : Int} {t : List Int}
    (he : pySorted l = h :: t) : ∀ x ∈ l, h ≤ x := by
  intro x hx
  have hperm := List.perm_insertionSort (α := Int) (· ≤ ·) l
  have hx2 : x ∈ pySorted l := (hperm.mem_iff).mpr hx
  rw [he] at hx2
  rcases List.mem_cons.mp hx2 with rfl | hx2
  · exact le_refl x
  · have hs : List.Sorted (· ≤ ·) (pySorted l) :=
      List.sorted_insertionSort (· ≤ ·) l
    rw [he] at hs
    exact (List.sorted_cons.mp hs).1 x hx2

theorem pySorted_head_mem {l : List Int} {h : Int} {t : List Int}
    (he : pySorted l = h :: t) : h ∈ l := by
  have hperm := List.perm_insertionSort (α := Int) (· ≤ ·) l
  exact hperm.subset (by rw [pySorted] at he; rw [he]; simp)

theorem pySorted_nil {l : List Int} (he : pySorted l = []) : l = [] := by
  have hperm := List.perm_insertionSort (α := Int) (· ≤ ·) l
  rw [pySorted] at he
  rw [he] at hperm
  exact (List.Perm.nil_eq hperm).symm

theorem ratePasses_iff (l : List Int) :
    ratePasses l = true ↔ ∀ x ∈ l, 0 < x := by
  rw [ratePasses]
  cases he : pySorted l with
  | nil =>
    simp only [decide_eq_true_eq]
    have := pySorted_nil he
    subst this
    simp
  | cons h t =>
    simp only [decide_eq_true_eq]
    constructor
    · intro h0 x hx
      exact lt_of_lt_of_le h0 (pySorted_head_le he x hx)
    · intro hall
      exact hall h (pySorted_head_mem he)

theorem publishersPasses_iff (l : List Int) :
    publishersPasses l = true ↔ ∀ x ∈ l, 0 < x := by
  rw [publishersPasses]
  cases he : pySorted l with
  | nil =>
    simp only [decide_eq_true_eq]
    have := pySorted_nil he
    subst this
    simp
  | cons h t =>
    simp only [decide_eq_true_eq]
    constructor
    · intro h0 x hx
      exact lt_of_lt_of_le h0 (pySorted_head_le he x hx)
    · intro hall
      exact hall h (pySorted_head_mem he)

theorem subscribersPasses_iff (l : List Int) :
    subscribersPasses l = true ↔ ∀ x ∈ l, 0 ≤ x := by
  rw [subscribersPasses]
  cases he : pySorted l with
  | nil =>
    simp only [decide_eq_true_eq]
    have := pySorted_nil he
    subst this
    simp
  | cons h t =>
    simp only [decide_eq_true_eq]
    constructor
    · intro h0 x hx
      exact le_trans h0 (pySorted_head_le he x hx)
    · intro hall
      exact hall h (pySorted_head_mem he)

/-! The claim theorems. -/

/-- C1: for every topics list, rates list, publisher-counts list,
subscriber-counts list and flag booleans, `generate_experiment_permutations`
produces exactly `|T| * |R| * |P| * |S| * (1+fr) * (1+fd) * (1+fs)`
experiments, each optional factor contributing one value when its boolean is
false and two (disabled then enabled) when true. -/
theorem claim_C1_generator_count (parent : List Char)
    (topics : List (List Char)) (rates num_pubs num_subs : List Int)
    (fr fd fs : Bool) :
    (generate_experiment_permutations parent topics rates num_pubs num_subs
      fr fd fs).length
      = topics.length * rates.length * num_pubs.length * num_subs.length *
        (if fr then 2 else 1) * (if fd then 2 else 1) *
        (if fs then 2 else 1) := by
  have hs : (flagChoices fs SECURITY_FLAG).length = if fs then 2 else 1 := by
    cases fs <;> rfl
  have hd : (flagChoices fd DURABILITY_FLAG).length = if fd then 2 else 1 := by
    cases fd <;> rfl
  have hr : (flagChoices fr RELIABLE_FLAG).length = if fr then 2 else 1 := by
    cases fr <;> rfl
  unfold generate_experiment_permutations
  have L7 : ∀ (t : List Char) (ra np ns : Int) (vr vd : List Char),
      ((flagChoices fs SECURITY_FLAG).flatMap fun vs =>
        [Experiment.init parent t ra np ns vr vd vs]).length
        = (if fs then 2 else 1) := by
    intro t ra np ns vr vd
    rw [length_flatMap_const
      (f := fun vs => [Experiment.init parent t ra np ns vr vd vs]) (k := 1)
      (fun a _ => rfl), hs, Nat.mul_one]
  have L6 : ∀ (t : List Char) (ra np ns : Int) (vr : List Char),
      ((flagChoices fd DURABILITY_FLAG).flatMap fun vd =>
        (flagChoices fs SECURITY_FLAG).flatMap fun vs =>
          [Experiment.init parent t ra np ns vr vd vs]).length
        = (if fd then 2 else 1) * (if fs then 2 else 1) := by
    intro t ra np ns vr
    rw [length_flatMap_const (fun a _ => L7 t ra np ns vr a), hd]
  have L5 : ∀ (t : List Char) (ra np ns : Int),
      ((flagChoices fr RELIABLE_FLAG).flatMap fun vr =>
        (flagChoices fd DURABILITY_FLAG).flatMap fun vd =>
          (flagChoices fs SECURITY_FLAG).flatMap fun vs =>
            [Experiment.init parent t ra np ns vr vd vs]).length
        = (if fr then 2 else 1) *
          ((if fd then 2 else 1) * (if fs then 2 else 1)) := by
    intro t ra np ns
    rw [length_flatMap_const (fun a _ => L6 t ra np ns a), hr]
  have L4 : ∀ (t : List Char) (ra np : Int),
      (num_subs.flatMap fun ns =>
        (flagChoices fr RELIABLE_FLAG).flatMap fun vr =>
          (flagChoices fd DURABILITY_FLAG).flatMap fun vd =>
            (flagChoices fs SECURITY_FLAG).flatMap fun vs =>
              [Experiment.init parent t ra np ns vr vd vs]).length
        = num_subs.length * ((if fr then 2 else 1) *
            ((if fd then 2 else 1) * (if fs then 2 else 1))) := by
    intro t ra np
    rw [length_flatMap_const (fun a _ => L5 t ra np a)]
  have L3 : ∀ (t : List Char) (ra : Int),
      (num_pubs.flatMap fun np =>
        num_subs.flatMap fun ns =>
          (flagChoices fr RELIABLE_FLAG).flatMap fun vr =>
            (flagChoices fd DURABILITY_FLAG).flatMap fun vd =>
              (flagChoices fs SECURITY_FLAG).flatMap fun vs =>
                [Experiment.init parent t ra np ns vr vd vs]).length
        = num_pubs.length * (num_subs.length * ((if fr then 2 else 1) *
            ((if fd then 2 else 1) * (if fs then 2 else 1)))) := by
    intro t ra
    rw [length_flatMap_const (fun a _ => L4 t ra a)]
  have L2 : ∀ (t : List Char),
      (rates.flatMap fun ra =>
        num_pubs.flatMap fun np =>
          num_subs.flatMap fun ns =>
            (flagChoices fr RELIABLE_FLAG).flatMap fun vr =>
              (flagChoices fd DURABILITY_FLAG).flatMap fun vd =>
                (flagChoices fs SECURITY_FLAG).flatMap fun vs =>
                  [Experiment.init parent t ra np ns vr vd vs]).length
        = rates.length * (num_pubs.length * (num_subs.length *
            ((if fr then 2 else 1) * ((if fd then 2 else 1) *
              (if fs then 2 else 1))))) := by
    intro t
    rw [length_flatMap_const (fun a _ => L3 t a)]
  rw [length_flatMap_const (fun a _ => L2 a)]
  ring

/-- C2: `run()` on a runner whose queue is non-empty removes exactly the
head experiment (the queue length drops by one and the old queue is the
popped head consed onto the new queue) and increments the executed counter
by exactly one, while `run()` on a runner with an empty queue changes
nothing (and, being modelled by a total function, raises nothing). -/
theorem claim_C2_run (r s : ExperimentRunner) (h1 : r.has_commands = true)
    (h2 : s.has_commands = false) :
    (∃ e, r.experiment_list = e :: (ExperimentRunner.run r).experiment_list) ∧
    (ExperimentRunner.run r).experiment_list.length + 1
      = r.experiment_list.length ∧
    (ExperimentRunner.run r).number_tests_executed
      = r.number_tests_executed + 1 ∧
    ExperimentRunner.run s = s := by
  rcases hq : r.experiment_list with _ | ⟨e, rest⟩
  · rw [ExperimentRunner.has_commands, hq] at h1
    simp at h1
  · have hsq : s.experiment_list = [] := by
      rcases hs2 : s.experiment_list with _ | ⟨x, xs⟩
      · rfl
      · rw [ExperimentRunner.has_commands, hs2] at h2
        simp at h2
    refine ⟨⟨e, ?_⟩, ?_, ?_, ?_⟩ <;>
      simp [ExperimentRunner.run, hq, hsq]

/-- C3: `kill()` always returns a state whose process registry is empty —
also from a state whose registry is already empty, since the reset is
unconditional and the termination signals are best-effort side effects whose
outcomes the code never inspects — and applying `kill()` twice in a row
yields exactly the state of applying it once. -/
theorem claim_C3_kill (r : ExperimentRunner) :
    (ExperimentRunner.kill r).processes = [] ∧
    ExperimentRunner.kill (ExperimentRunner.kill r) = ExperimentRunner.kill r :=
  ⟨rfl, rfl⟩

/-- C4 (counterexample): the period 0 is non-positive, yet the `main`
validation accepts rates `[5]`, publishers `[1]`, subscribers `[1]` with
period 0, because the code checks `period + 1.0 <= 0` after adding 1.0
(line 297) rather than the supplied period itself. -/
theorem claim_C4_counterexample :
    ((0 : ℚ) ≤ 0) ∧ mainValidation [5] [1] [1] 0 = true := by
  constructor
  · exact le_refl 0
  · simp [mainValidation, ratePasses, publishersPasses, subscribersPasses,
      pySorted, List.insertionSort, List.orderedInsert]

/-- C4 (amended): the `main` validation passes iff every rate is positive,
every publisher count is positive, every subscriber count is non-negative,
and the period is greater than -1 (the code errors out exactly when
`period + 1.0 <= 0`); equivalently, an argument set is rejected before any
run starts iff some rate or publisher count is non-positive, some
subscriber count is negative, or the period is at most -1. -/
theorem claim_C4_validation_amended (rates pubs subs : List Int) (p : ℚ) :
    mainValidation rates pubs subs p = true ↔
      ((∀ x ∈ rates, 0 < x) ∧ (∀ x ∈ pubs, 0 < x) ∧ (∀ x ∈ subs, 0 ≤ x) ∧
        (-1 : ℚ) < p) := by
  rw [mainValidation]
  simp only [Bool.and_eq_true, ratePasses_iff, publishersPasses_iff,
    subscribersPasses_iff, decide_eq_true_eq, and_assoc]
  constructor
  · rintro ⟨ha, hb, hc, hd⟩
    exact ⟨ha, hb, hc, by linarith⟩
  · rintro ⟨ha, hb, hc, hd⟩
    exact ⟨ha, hb, hc, by linarith⟩

/-- C4 (witness): a concrete valid argument set accepted by the amended
characterization. -/
theorem claim_C4_validation_amended_witness :
    mainValidation [3] [1] [0] 60 = true :=
  (claim_C4_validation_amended [3] [1] [0] 60).mpr
    ⟨by decide, by decide, by decide, by norm_num⟩


/-- C2 (witness): a queue of one experiment shrinks to the empty queue with
the counter incremented, and `run()` leaves a runner with an empty queue
unchanged. -/
theorem claim_C2_run_witness :
    (∃ e, (ExperimentRunner.mk [] 0 [Experiment.init [] [] 1 1 1 [] [] []]
        false).experiment_list
      = e :: (ExperimentRunner.run (ExperimentRunner.mk [] 0
          [Experiment.init [] [] 1 1 1 [] [] []] false)).experiment_list) ∧
    (ExperimentRunner.run (ExperimentRunner.mk [] 0
        [Experiment.init [] [] 1 1 1 [] [] []] false)).experiment_list.length + 1
      = (ExperimentRunner.mk [] 0 [Experiment.init [] [] 1 1 1 [] [] []]
          false).experiment_list.length ∧
    (ExperimentRunner.run (ExperimentRunner.mk [] 0
        [Experiment.init [] [] 1 1 1 [] [] []] false)).number_tests_executed
      = (ExperimentRunner.mk [] 0 [Experiment.init [] [] 1 1 1 [] [] []]
          false).number_tests_executed + 1 ∧
    ExperimentRunner.run (ExperimentRunner.mk [] 0 [] false)
      = ExperimentRunner.mk [] 0 [] false :=
  claim_C2_run
    (ExperimentRunner.mk [] 0 [Experiment.init [] [] 1 1 1 [] [] []] false)
    (ExperimentRunner.mk [] 0 [] false) rfl rfl

/-- C5: every experiment's command is exactly the benchmark invocation
`<COMMAND_PREFIX> --topic <topic> --rate <rate> -p<pubs> -s<subs>
<optional flags in fixed order reliability, durability, security>
-l <log-file-path>`; and for topics `["Struct256"]`, rates `[7]`,
publishers `[1]`, subscribers `[5]` with only reliability enabled, the
generator yields exactly two experiments, first without and then with the
reliability flag, with exactly the commands and directories the spec
scenario lists. -/
theorem claim_C5_command :
    (∀ (parent topic : List Char) (rate np ns : Int) (f1 f2 f3 : List Char),
      (Experiment.init parent topic rate np ns f1 f2 f3).command
        = COMMAND_START ++ " --topic ".toList ++ topic ++ " --rate ".toList
          ++ pyStrInt rate ++ " -p".toList ++ pyStrInt np ++ " -s".toList
          ++ pyStrInt ns ++ flagArgs f1 f2 f3 ++ " -l ".toList
          ++ (Experiment.init parent topic rate np ns f1 f2 f3).file_name) ∧
    (∀ parent : List Char,
      ((generate_experiment_permutations parent ["Struct256".toList] [7] [1]
          [5] true false false).map Experiment.command
        = ["ros2 run performance_test perf_test --communication ROS2 --topic Struct256 --rate 7 -p1 -s5 -l ".toList
            ++ parent ++ "/Struct256/topicStruct256_rate7_p1_s5.log".toList,
           "ros2 run performance_test perf_test --communication ROS2 --topic Struct256 --rate 7 -p1 -s5 --reliable -l ".toList
            ++ parent
            ++ "/Struct256_reliable/topicStruct256_rate7_p1_s5_reliable.log".toList]) ∧
      ((generate_experiment_permutations parent ["Struct256".toList] [7] [1]
          [5] true false false).map Experiment.path
        = [parent ++ "/Struct256".toList,
           parent ++ "/Struct256_reliable".toList])) := by
  constructor
  · exact init_command_eq
  · intro parent
    have h7 : pyStrInt 7 = ['7'] := by decide
    have hp1 : pyStrInt 1 = ['1'] := by decide
    have hs5 : pyStrInt 5 = ['5'] := by decide
    have hgen : generate_experiment_permutations parent ["Struct256".toList]
        [7] [1] [5] true false false
        = [Experiment.init parent "Struct256".toList 7 1 5 [] [] [],
           Experiment.init parent "Struct256".toList 7 1 5 RELIABLE_FLAG [] []] := by
      simp [generate_experiment_permutations, flagChoices]
    constructor
    · rw [hgen]
      simp only [List.map_cons, List.map_nil, List.cons.injEq, and_true]
      constructor
      · rw [init_command_eq, init_file_name_eq]
        simp [flagArgs, flagSuffix, COMMAND_START, h7, hp1, hs5,
          List.append_assoc]
      · rw [init_command_eq, init_file_name_eq]
        simp [flagArgs, flagSuffix, COMMAND_START, RELIABLE_FLAG, h7, hp1, hs5,
          List.append_assoc]
    · rw [hgen]
      simp only [List.map_cons, List.map_nil, List.cons.injEq, and_true]
      constructor
      · rw [init_path_eq]
        simp [flagSuffix, List.append_assoc]
      · rw [init_path_eq]
        simp [flagSuffix, RELIABLE_FLAG, List.append_assoc]

/-- C6: every experiment's directory is exactly
`{parent}/{topic}{suffix}` and its log file is exactly
`{parent}/{topic}{suffix}/topic{topic}_rate{rate}_p{pubs}_s{subs}{suffix}.log`,
where `{suffix}` (`flagSuffix`) lists exactly the flags set true, in the
fixed order reliability, durability, security, each token prefixed by an
underscore. -/
theorem claim_C6_layout (parent topic : List Char) (rate np ns : Int)
    (f1 f2 f3 : List Char) :
    (Experiment.init parent topic rate np ns f1 f2 f3).path
      = parent ++ "/".toList ++ topic ++ flagSuffix f1 f2 f3 ∧
    (Experiment.init parent topic rate np ns f1 f2 f3).file_name
      = parent ++ "/".toList ++ topic ++ flagSuffix f1 f2 f3 ++ "/".toList
        ++ "topic".toList ++ topic ++ "_rate".toList ++ pyStrInt rate
        ++ "_p".toList ++ pyStrInt np ++ "_s".toList ++ pyStrInt ns
        ++ flagSuffix f1 f2 f3 ++ ".log".toList := by
  refine ⟨init_path_eq parent topic rate np ns f1 f2 f3, ?_⟩
  rw [init_file_name_eq]
  simp [List.append_assoc]

/-- C10: when the security parameter is truthy, the token embedded in the
directory path is the full `_with_security` (the path ends with it) and the
log file name ends with `_with_security.log` — the `with_` part is never
stripped, since the script discards the result of
`optional_filename.replace('with_', '')`. -/
theorem claim_C10_security_token (parent topic : List Char) (rate np ns : Int)
    (f1 f2 f3 : List Char) (hsec : f3 ≠ []) :
    (∃ u, (Experiment.init parent topic rate np ns f1 f2 f3).path
        = u ++ "_with_security".toList) ∧
    (∃ v, (Experiment.init parent topic rate np ns f1 f2 f3).file_name
        = v ++ "_with_security.log".toList) := by
  constructor
  · refine ⟨parent ++ "/".toList ++ topic ++
      ((if f1 = [] then [] else "_reliable".toList) ++
       (if f2 = [] then [] else "_transient".toList)), ?_⟩
    rw [init_path_eq]
    simp [flagSuffix, hsec, List.append_assoc]
  · refine ⟨parent ++ "/".toList ++ topic ++ flagSuffix f1 f2 f3
      ++ "/".toList ++ "topic".toList ++ topic ++ "_rate".toList
      ++ pyStrInt rate ++ "_p".toList ++ pyStrInt np ++ "_s".toList
      ++ pyStrInt ns ++
      ((if f1 = [] then [] else "_reliable".toList) ++
       (if f2 = [] then [] else "_transient".toList)), ?_⟩
    rw [init_file_name_eq]
    simp [flagSuffix, hsec, List.append_assoc]

/-- C10 (witness): the suffix facts at a concrete experiment with the
security flag set. -/
theorem claim_C10_security_token_witness :
    (∃ u, (Experiment.init "e".toList "Range".toList 3 1 0 [] [] SECURITY_FLAG).path
        = u ++ "_with_security".toList) ∧
    (∃ v, (Experiment.init "e".toList "Range".toList 3 1 0 [] []
        SECURITY_FLAG).file_name = v ++ "_with_security.log".toList) :=
  claim_C10_security_token "e".toList "Range".toList 3 1 0 [] [] SECURITY_FLAG
    (by decide)


/-- C8: two generated experiments in the same directory (same parent, same
topic, same set of truthy optional flags) whose (rate, publishers,
subscribers) triples differ get different log file names; and two
experiments equal in all parameters except their truthy optional-flag sets
get different directory paths. -/
theorem claim_C8_uniqueness :
    (∀ (parent T : List Char) (r1 p1 s1 r2 p2 s2 : Int)
        (f1 f2 f3 g1 g2 g3 : List Char),
      (f1 = [] ↔ g1 = []) → (f2 = [] ↔ g2 = []) → (f3 = [] ↔ g3 = []) →
      (r1, p1, s1) ≠ (r2, p2, s2) →
      (Experiment.init parent T r1 p1 s1 f1 f2 f3).file_name
        ≠ (Experiment.init parent T r2 p2 s2 g1 g2 g3).file_name) ∧
    (∀ (parent T : List Char) (r p s : Int) (f1 f2 f3 g1 g2 g3 : List Char),
      ¬((f1 = [] ↔ g1 = []) ∧ (f2 = [] ↔ g2 = []) ∧ (f3 = [] ↔ g3 = [])) →
      (Experiment.init parent T r p s f1 f2 f3).path
        ≠ (Experiment.init parent T r p s g1 g2 g3).path) := by
  constructor
  · intro parent T r1 p1 s1 r2 p2 s2 f1 f2 f3 g1 g2 g3 e1 e2 e3 hne heq
    rw [init_file_name_eq, init_file_name_eq,
      ← flagSuffix_congr e1 e2 e3] at heq
    simp only [List.append_assoc] at heq
    have h1 := append_cancelL heq
    have h2 := append_cancelL h1
    have h3 := append_cancelL h2
    have h4 := append_cancelL h3
    have h5 := append_cancelL h4
    have h6 := append_cancelL h5
    have h7 := append_cancelL h6
    simp only [show ("_p".toList : List Char) = '_' :: ['p'] from rfl,
      show ("_s".toList : List Char) = '_' :: ['s'] from rfl,
      List.cons_append, List.nil_append] at h7
    obtain ⟨hr, hp, hs⟩ := triple_of_tail_eq (flagSuffix_shape f1 f2 f3) h7
    exact hne (by rw [hr, hp, hs])
  · intro parent T r p s f1 f2 f3 g1 g2 g3 hne heq
    rw [init_path_eq, init_path_eq] at heq
    simp only [List.append_assoc] at heq
    exact hne (flagSuffix_eq_iff (append_cancelL (append_cancelL
      (append_cancelL heq))))

/-- C8 (witness): concrete instances — same directory but different rates
give different file names, and a differing flag set gives a different
directory. -/
theorem claim_C8_uniqueness_witness :
    (Experiment.init "e".toList "Range".toList 1 1 1 RELIABLE_FLAG []
        []).file_name
      ≠ (Experiment.init "e".toList "Range".toList 2 1 1 RELIABLE_FLAG []
        []).file_name ∧
    (Experiment.init "e".toList "Range".toList 1 1 1 RELIABLE_FLAG []
        []).path
      ≠ (Experiment.init "e".toList "Range".toList 1 1 1 [] [] []).path :=
  ⟨claim_C8_uniqueness.1 "e".toList "Range".toList 1 1 1 2 1 1 RELIABLE_FLAG
      [] [] RELIABLE_FLAG [] [] Iff.rfl Iff.rfl Iff.rfl (by decide),
   claim_C8_uniqueness.2 "e".toList "Range".toList 1 1 1 RELIABLE_FLAG [] []
      [] [] [] (by decide)⟩


/-! Supporting facts for the sampler file-name derivation (claim C9). -/

theorem mayStart_pyStrInt_topic (i : Int) :
    mayStart (pyStrInt i) "topic".toList = false := by
  rw [show ("topic".toList : List Char) = 't' :: "opic".toList from rfl]
  exact mayStart_pyStrInt (by decide) (by decide)

theorem mayStart_pyStrInt_log (i : Int) :
    mayStart (pyStrInt i) ".log".toList = false := by
  rw [show (".log".toList : List Char) = '.' :: "log".toList from rfl]
  exact mayStart_pyStrInt (by decide) (by decide)

theorem valid_topics_clean : ∀ X ∈ VALID_TOPICS,
    mayStart X "topic".toList = false ∧ mayStart X ".log".toList = false := by
  decide

theorem mayStart_if_flag {c : Prop} [Decidable c] {lit pat : List Char}
    (hlit : mayStart lit pat = false) :
    mayStart (if c then [] else lit) pat = false := by
  by_cases hc : c
  · rw [if_pos hc]
    rfl
  · rw [if_neg hc]
    exact hlit

theorem flagSuffix_mayStart {pat : List Char} (f1 f2 f3 : List Char)
    (h1 : mayStart "_reliable".toList pat = false)
    (h2 : mayStart "_transient".toList pat = false)
    (h3 : mayStart "_with_security".toList pat = false) :
    mayStart (flagSuffix f1 f2 f3) pat = false := by
  rw [flagSuffix]
  exact mayStart_append (mayStart_append (mayStart_if_flag h1)
    (mayStart_if_flag h2)) (mayStart_if_flag h3)

theorem flagSuffix_slash_topic (f1 f2 f3 : List Char) :
    mayStart (flagSuffix f1 f2 f3 ++ "/".toList) "topic".toList = false := by
  by_cases h1 : f1 = [] <;> by_cases h2 : f2 = [] <;> by_cases h3 : f3 = [] <;>
    simp [flagSuffix, h1, h2, h3] <;> decide

theorem flagSuffix_slash_log (f1 f2 f3 : List Char) :
    mayStart (flagSuffix f1 f2 f3 ++ "/".toList) ".log".toList = false := by
  by_cases h1 : f1 = [] <;> by_cases h2 : f2 = [] <;> by_cases h3 : f3 = [] <;>
    simp [flagSuffix, h1, h2, h3] <;> decide

theorem flagSuffix_dotlog_topic (f1 f2 f3 : List Char) :
    mayStart (flagSuffix f1 f2 f3 ++ ".log".toList) "topic".toList = false := by
  by_cases h1 : f1 = [] <;> by_cases h2 : f2 = [] <;> by_cases h3 : f3 = [] <;>
    simp [flagSuffix, h1, h2, h3] <;> decide

/-- C9: for an experiment whose topic is in the whitelist (and whose parent
directory contains no possible start of an occurrence of `topic` or of
`.log`, as holds for the `experiment_<date>` directories the script
creates), the sampler output name handed to `log_system_stats.py` by
`run()` is the experiment's log file name with its `topic` segment replaced
by `system_info_topic` and its `.log` extension replaced by `.csv`, the
rest unchanged; and `run()` with sampling enabled registers exactly the
sampler handle with that name followed by the benchmark handle. -/
theorem claim_C9_sampler_name (parent T : List Char) (hT : T ∈ VALID_TOPICS)
    (rate np ns : Int) (f1 f2 f3 : List Char) (ps : List Proc) (k : Nat)
    (rest : List Experiment)
    (hp1 : mayStart parent "topic".toList = false)
    (hp2 : mayStart parent ".log".toList = false) :
    ∃ M : List Char,
      (Experiment.init parent T rate np ns f1 f2 f3).file_name
        = (Experiment.init parent T rate np ns f1 f2 f3).path ++ "/".toList
          ++ "topic".toList ++ M ++ ".log".toList ∧
      samplerFileName (Experiment.init parent T rate np ns f1 f2 f3)
        = (Experiment.init parent T rate np ns f1 f2 f3).path ++ "/".toList
          ++ "system_info_topic".toList ++ M ++ ".csv".toList ∧
      (ExperimentRunner.run (ExperimentRunner.mk ps k
          (Experiment.init parent T rate np ns f1 f2 f3 :: rest)
          true)).processes
        = ps ++ [Proc.sampler (samplerFileName
            (Experiment.init parent T rate np ns f1 f2 f3)),
          Proc.bench (Experiment.init parent T rate np ns f1 f2 f3)] := by
  have hTc := valid_topics_clean T hT
  have hOl : mayStart (flagSuffix f1 f2 f3) ".log".toList = false :=
    flagSuffix_mayStart f1 f2 f3 (by decide) (by decide) (by decide)
  have hA : mayStart (parent ++ "/".toList ++ T
      ++ (flagSuffix f1 f2 f3 ++ "/".toList)) "topic".toList = false :=
    mayStart_append (mayStart_append (mayStart_append hp1
      (by decide)) hTc.1) (flagSuffix_slash_topic f1 f2 f3)
  have hAl : mayStart (parent ++ "/".toList ++ T
      ++ (flagSuffix f1 f2 f3 ++ "/".toList)) ".log".toList = false :=
    mayStart_append (mayStart_append (mayStart_append hp2
      (by decide)) hTc.2) (flagSuffix_slash_log f1 f2 f3)
  have hC : mayStart (T ++ ("_rate".toList ++ (pyStrInt rate ++
      ("_p".toList ++ (pyStrInt np ++ ("_s".toList ++ (pyStrInt ns ++
        (flagSuffix f1 f2 f3 ++ ".log".toList)))))))) "topic".toList
      = false :=
    mayStart_append hTc.1 (mayStart_append (by decide) (mayStart_append
      (mayStart_pyStrInt_topic rate) (mayStart_append (by decide)
        (mayStart_append (mayStart_pyStrInt_topic np) (mayStart_append
          (by decide) (mayStart_append (mayStart_pyStrInt_topic ns)
            (flagSuffix_dotlog_topic f1 f2 f3)))))))
  have hfile : (Experiment.init parent T rate np ns f1 f2 f3).file_name
      = (parent ++ "/".toList ++ T ++ (flagSuffix f1 f2 f3 ++ "/".toList))
        ++ ("topic".toList ++ (T ++ ("_rate".toList ++ (pyStrInt rate ++
          ("_p".toList ++ (pyStrInt np ++ ("_s".toList ++ (pyStrInt ns ++
            (flagSuffix f1 f2 f3 ++ ".log".toList))))))))) := by
    rw [init_file_name_eq]
    simp [List.append_assoc]
  have hstep1 : pyReplace
      (Experiment.init parent T rate np ns f1 f2 f3).file_name
      "topic".toList "system_info_topic".toList
      = (parent ++ "/".toList ++ T ++ (flagSuffix f1 f2 f3 ++ "/".toList))
        ++ ("system_info_topic".toList ++ (T ++ ("_rate".toList ++
          (pyStrInt rate ++ ("_p".toList ++ (pyStrInt np ++ ("_s".toList ++
            (pyStrInt ns ++ (flagSuffix f1 f2 f3 ++ ".log".toList))))))))) := by
    rw [hfile, pyReplace_append_left _ _ hA, pyReplace_hit _ _ (by decide),
      pyReplace_of_mayStart_false _ hC]
  have hA2 : mayStart ((parent ++ "/".toList ++ T
      ++ (flagSuffix f1 f2 f3 ++ "/".toList)) ++ ("system_info_topic".toList
        ++ (T ++ ("_rate".toList ++ (pyStrInt rate ++ ("_p".toList ++
          (pyStrInt np ++ ("_s".toList ++ (pyStrInt ns ++
            flagSuffix f1 f2 f3)))))))))
      ".log".toList = false :=
    mayStart_append hAl (mayStart_append (by decide) (mayStart_append hTc.2
      (mayStart_append (by decide) (mayStart_append (mayStart_pyStrInt_log
        rate) (mayStart_append (by decide) (mayStart_append
          (mayStart_pyStrInt_log np) (mayStart_append (by decide)
            (mayStart_append (mayStart_pyStrInt_log ns) hOl))))))))
  have hlogcsv : pyReplace ".log".toList ".log".toList ".csv".toList
      = ".csv".toList := by
    have h := @pyReplace_hit ".log".toList [] ".csv".toList (by decide)
    simpa [pyReplace_nil] using h
  have hstep2 : samplerFileName (Experiment.init parent T rate np ns f1 f2 f3)
      = ((parent ++ "/".toList ++ T ++ (flagSuffix f1 f2 f3 ++ "/".toList))
        ++ ("system_info_topic".toList ++ (T ++ ("_rate".toList ++
          (pyStrInt rate ++ ("_p".toList ++ (pyStrInt np ++ ("_s".toList ++
            (pyStrInt ns ++ flagSuffix f1 f2 f3)))))))))
        ++ ".csv".toList := by
    rw [samplerFileName, hstep1]
    have hsplit : (parent ++ "/".toList ++ T
        ++ (flagSuffix f1 f2 f3 ++ "/".toList)) ++ ("system_info_topic".toList
          ++ (T ++ ("_rate".toList ++ (pyStrInt rate ++ ("_p".toList ++
            (pyStrInt np ++ ("_s".toList ++ (pyStrInt ns ++
              (flagSuffix f1 f2 f3 ++ ".log".toList)))))))))
        = ((parent ++ "/".toList ++ T ++ (flagSuffix f1 f2 f3 ++ "/".toList))
          ++ ("system_info_topic".toList ++ (T ++ ("_rate".toList ++
            (pyStrInt rate ++ ("_p".toList ++ (pyStrInt np ++ ("_s".toList ++
              (pyStrInt ns ++ flagSuffix f1 f2 f3)))))))))
          ++ ".log".toList := by
      simp [List.append_assoc]
    rw [hsplit, pyReplace_append_left _ _ hA2, hlogcsv]
  refine ⟨T ++ ("_rate".toList ++ (pyStrInt rate ++ ("_p".toList ++
    (pyStrInt np ++ ("_s".toList ++ (pyStrInt ns ++
      flagSuffix f1 f2 f3)))))), ?_, ?_, ?_⟩
  · rw [hfile, init_path_eq]
    simp [List.append_assoc]
  · rw [hstep2, init_path_eq]
    simp [List.append_assoc]
  · simp [ExperimentRunner.run]


/-! Lengths of the nested product levels of the permutation generator. -/

theorem permLen7 (parent : List Char) (fs : Bool) (t : List Char)
    (ra np ns : Int) (vr vd : List Char) :
    ((flagChoices fs SECURITY_FLAG).flatMap fun vs =>
      [Experiment.init parent t ra np ns vr vd vs]).length
    = (if fs then 2 else 1) := by
  rw [length_flatMap_const
    (f := fun vs => [Experiment.init parent t ra np ns vr vd vs]) (k := 1)
    (fun a _ => rfl), Nat.mul_one]
  cases fs <;> rfl

theorem permLen6 (parent : List Char) (fd fs : Bool) (t : List Char)
    (ra np ns : Int) (vr : List Char) :
    ((flagChoices fd DURABILITY_FLAG).flatMap fun vd =>
      (flagChoices fs SECURITY_FLAG).flatMap fun vs =>
        [Experiment.init parent t ra np ns vr vd vs]).length
    = (if fd then 2 else 1) * (if fs then 2 else 1) := by
  rw [length_flatMap_const (fun a _ => permLen7 parent fs t ra np ns vr a)]
  cases fd <;> rfl

theorem permLen5 (parent : List Char) (fr fd fs : Bool) (t : List Char)
    (ra np ns : Int) :
    ((flagChoices fr RELIABLE_FLAG).flatMap fun vr =>
      (flagChoices fd DURABILITY_FLAG).flatMap fun vd =>
        (flagChoices fs SECURITY_FLAG).flatMap fun vs =>
          [Experiment.init parent t ra np ns vr vd vs]).length
    = (if fr then 2 else 1) * ((if fd then 2 else 1) * (if fs then 2 else 1)) := by
  rw [length_flatMap_const (fun a _ => permLen6 parent fd fs t ra np ns a)]
  cases fr <;> rfl

theorem permLen4 (parent : List Char) (num_subs : List Int) (fr fd fs : Bool)
    (t : List Char) (ra np : Int) :
    (num_subs.flatMap fun ns =>
      (flagChoices fr RELIABLE_FLAG).flatMap fun vr =>
        (flagChoices fd DURABILITY_FLAG).flatMap fun vd =>
          (flagChoices fs SECURITY_FLAG).flatMap fun vs =>
            [Experiment.init parent t ra np ns vr vd vs]).length
    = num_subs.length * ((if fr then 2 else 1) * ((if fd then 2 else 1) *
        (if fs then 2 else 1))) :=
  length_flatMap_const (fun a _ => permLen5 parent fr fd fs t ra np a)

theorem permLen3 (parent : List Char) (num_pubs num_subs : List Int)
    (fr fd fs : Bool) (t : List Char) (ra : Int) :
    (num_pubs.flatMap fun np =>
      num_subs.flatMap fun ns =>
        (flagChoices fr RELIABLE_FLAG).flatMap fun vr =>
          (flagChoices fd DURABILITY_FLAG).flatMap fun vd =>
            (flagChoices fs SECURITY_FLAG).flatMap fun vs =>
              [Experiment.init parent t ra np ns vr vd vs]).length
    = num_pubs.length * (num_subs.length * ((if fr then 2 else 1) *
        ((if fd then 2 else 1) * (if fs then 2 else 1)))) :=
  length_flatMap_const (fun a _ => permLen4 parent num_subs fr fd fs t ra a)

theorem permLen2 (parent : List Char) (rates num_pubs num_subs : List Int)
    (fr fd fs : Bool) (t : List Char) :
    (rates.flatMap fun ra =>
      num_pubs.flatMap fun np =>
        num_subs.flatMap fun ns =>
          (flagChoices fr RELIABLE_FLAG).flatMap fun vr =>
            (flagChoices fd DURABILITY_FLAG).flatMap fun vd =>
              (flagChoices fs SECURITY_FLAG).flatMap fun vs =>
                [Experiment.init parent t ra np ns vr vd vs]).length
    = rates.length * (num_pubs.length * (num_subs.length *
        ((if fr then 2 else 1) * ((if fd then 2 else 1) *
          (if fs then 2 else 1))))) :=
  length_flatMap_const (fun a _ => permLen3 parent num_pubs num_subs fr fd fs t a)

/-- C7: the generator enumerates the Cartesian product with topics as the
outermost factor, then rates, publishers, subscribers, reliability,
durability, security (each optional factor listing the flag-absent value
before the flag-present one), in mixed-radix index order: the `i`-th
generated experiment is built from the factor entries selected by the
div/mod decomposition of `i`; and the scheduler launches experiments
strictly in queue order: after the `n`-th timer tick (each tick being
kill-then-run), the only benchmark handle in the registry is the `n`-th
queued experiment. -/
theorem claim_C7_order :
    (∀ (parent : List Char) (topics : List (List Char))
        (rates num_pubs num_subs : List Int) (fr fd fs : Bool) (i : Nat)
        (t : List Char) (ra np ns : Int) (vr vd vs : List Char),
      topics.get? (i / (rates.length * (num_pubs.length * (num_subs.length *
          ((if fr then 2 else 1) * ((if fd then 2 else 1) *
            (if fs then 2 else 1))))))) = some t →
      rates.get? (i / (num_pubs.length * (num_subs.length *
          ((if fr then 2 else 1) * ((if fd then 2 else 1) *
            (if fs then 2 else 1))))) % rates.length) = some ra →
      num_pubs.get? (i / (num_subs.length * ((if fr then 2 else 1) *
          ((if fd then 2 else 1) * (if fs then 2 else 1))))
          % num_pubs.length) = some np →
      num_subs.get? (i / ((if fr then 2 else 1) * ((if fd then 2 else 1) *
          (if fs then 2 else 1))) % num_subs.length) = some ns →
      (flagChoices fr RELIABLE_FLAG).get? (i / ((if fd then 2 else 1) *
          (if fs then 2 else 1)) % (if fr then 2 else 1)) = some vr →
      (flagChoices fd DURABILITY_FLAG).get? (i / (if fs then 2 else 1)
          % (if fd then 2 else 1)) = some vd →
      (flagChoices fs SECURITY_FLAG).get? (i % (if fs then 2 else 1))
          = some vs →
      (generate_experiment_permutations parent topics rates num_pubs num_subs
          fr fd fs).get? i
        = some (Experiment.init parent t ra np ns vr vd vs)) ∧
    (∀ (q : List Experiment) (stats : Bool) (ps : List Proc) (k n : Nat)
        (e : Experiment), q.get? n = some e →
      benchOf (iterKR (n + 1) (ExperimentRunner.mk ps k q stats)).processes
        = [e]) := by
  constructor
  · intro parent topics rates num_pubs num_subs fr fd fs i t ra np ns vr vd
      vs hT hR hP hS hvr hvd hvs
    unfold generate_experiment_permutations
    rw [get?_flatMap_const
        (fun a _ => permLen2 parent rates num_pubs num_subs fr fd fs a) i,
      hT, Option.some_bind,
      get?_flatMap_const
        (fun a _ => permLen3 parent num_pubs num_subs fr fd fs t a) _,
      Nat.mod_mul_left_div_self,
      Nat.mod_mod_of_dvd i ⟨rates.length, by ring⟩,
      hR, Option.some_bind,
      get?_flatMap_const
        (fun a _ => permLen4 parent num_subs fr fd fs t ra a) _,
      Nat.mod_mul_left_div_self,
      Nat.mod_mod_of_dvd i ⟨num_pubs.length, by ring⟩,
      hP, Option.some_bind,
      get?_flatMap_const (fun a _ => permLen5 parent fr fd fs t ra np a) _,
      Nat.mod_mul_left_div_self,
      Nat.mod_mod_of_dvd i ⟨num_subs.length, by ring⟩,
      hS, Option.some_bind,
      get?_flatMap_const (fun a _ => permLen6 parent fd fs t ra np ns a) _,
      Nat.mod_mul_left_div_self,
      Nat.mod_mod_of_dvd i ⟨(if fr then 2 else 1), by ring⟩,
      hvr, Option.some_bind,
      get?_flatMap_const (fun a _ => permLen7 parent fs t ra np ns vr a) _,
      Nat.mod_mul_left_div_self,
      Nat.mod_mod_of_dvd i ⟨(if fd then 2 else 1), by ring⟩,
      hvd, Option.some_bind,
      get?_flatMap_const
        (f := fun vs' => [Experiment.init parent t ra np ns vr vd vs'])
        (k := 1) (fun a _ => rfl) _,
      Nat.div_one, hvs, Option.some_bind, Nat.mod_one]
    rfl
  · intro q stats ps k n e hq
    exact benchOf_after q stats ps k n e hq


/-- C7 (witness): at index 27 of a 2x2x1x2x2x1x2 sweep the mixed-radix
decomposition picks the second topic, the second rate, the first publisher
and subscriber entries, the reliability flag on, durability off, security
on; and the second timer tick launches the second queued experiment. -/
theorem claim_C7_order_witness :
    (generate_experiment_permutations "e".toList
        ["Array1k".toList, "Struct16".toList] [3, 4] [1] [0, 2]
        true false true).get? 27
      = some (Experiment.init "e".toList "Struct16".toList 4 1 0
          RELIABLE_FLAG [] SECURITY_FLAG) ∧
    benchOf (iterKR (1 + 1) (ExperimentRunner.mk [] 0
        [Experiment.init "e".toList "Range".toList 1 1 1 [] [] [],
         Experiment.init "e".toList "Range".toList 2 1 1 [] [] []]
        false)).processes
      = [Experiment.init "e".toList "Range".toList 2 1 1 [] [] []] :=
  ⟨claim_C7_order.1 "e".toList ["Array1k".toList, "Struct16".toList] [3, 4]
      [1] [0, 2] true false true 27 "Struct16".toList 4 1 0 RELIABLE_FLAG []
      SECURITY_FLAG (by decide) (by decide) (by decide) (by decide)
      (by decide) (by decide) (by decide),
   claim_C7_order.2
      [Experiment.init "e".toList "Range".toList 1 1 1 [] [] [],
       Experiment.init "e".toList "Range".toList 2 1 1 [] [] []] false [] 0 1
      (Experiment.init "e".toList "Range".toList 2 1 1 [] [] [])
      (by decide)⟩

/-- C9 (witness): the sampler name derivation at a concrete experiment in
an `experiment_<date>` parent directory, with the reliability flag set. -/
theorem claim_C9_sampler_name_witness :
    ∃ M : List Char,
      (Experiment.init "experiment_2019-01-01_00-00-00".toList
          "Struct256".toList 7 1 5 RELIABLE_FLAG [] []).file_name
        = (Experiment.init "experiment_2019-01-01_00-00-00".toList
            "Struct256".toList 7 1 5 RELIABLE_FLAG [] []).path ++ "/".toList
          ++ "topic".toList ++ M ++ ".log".toList ∧
      samplerFileName (Experiment.init "experiment_2019-01-01_00-00-00".toList
          "Struct256".toList 7 1 5 RELIABLE_FLAG [] [])
        = (Experiment.init "experiment_2019-01-01_00-00-00".toList
            "Struct256".toList 7 1 5 RELIABLE_FLAG [] []).path ++ "/".toList
          ++ "system_info_topic".toList ++ M ++ ".csv".toList ∧
      (ExperimentRunner.run (ExperimentRunner.mk [] 0
          [Experiment.init "experiment_2019-01-01_00-00-00".toList
            "Struct256".toList 7 1 5 RELIABLE_FLAG [] []]
          true)).processes
        = [] ++ [Proc.sampler (samplerFileName
            (Experiment.init "experiment_2019-01-01_00-00-00".toList
              "Struct256".toList 7 1 5 RELIABLE_FLAG [] [])),
          Proc.bench (Experiment.init "experiment_2019-01-01_00-00-00".toList
            "Struct256".toList 7 1 5 RELIABLE_FLAG [] [])] :=
  claim_C9_sampler_name "experiment_2019-01-01_00-00-00".toList
    "Struct256".toList (by decide) 7 1 5 RELIABLE_FLAG [] [] [] 0 []
    (by decide) (by decide)

